import Mathlib

/-!
Verification of the gradient-descent investigation script
(src/exercises/gradient_descent_investigation.py).

The script itself is embedded from its source.  The IMLearn collaborators it
imports (GradientDescent, FixedLR, split_train_test, the L1/L2 modules) are not
part of the source tree here; where a claim depends on them they are modelled
from the specification, and each such definition is marked
"Modelled from the spec:" in its doc comment.

Python values and mutable list objects are embedded with an explicit heap:
a list object is a reference (a natural number) into a heap holding the
current contents of every allocated list.
-/

/-- Python values relevant to the callback: None, a number, a numpy array
(which has no append method), and a Python list object (a heap reference). -/
inductive PyVal where
  | pyNone
  | num (q : ℚ)
  | arr (data : List ℚ)
  | list (r : Nat)
deriving DecidableEq

/-- Python exceptions raised by the embedded code. -/
inductive PyErr where
  | attributeError
  | notImplementedError
deriving DecidableEq

/-- The heap of allocated Python list objects: position r holds the current
contents of the list object with reference r. -/
abbrev Heap := List (List PyVal)

/-- Contents of the list object at reference r. -/
def heapGet (h : Heap) (r : Nat) : List PyVal :=
  (h.get? r).getD []

/-- Mutate the list object at reference r by appending x (list.append). -/
def heapAppend (h : Heap) (r : Nat) (x : PyVal) : Heap :=
  h.set r (heapGet h r ++ [x])

/-- The closure state captured by the callback returned by
get_gd_state_recorder_callback: references to the two accumulator lists
(named weights and losses in the source). -/
structure Recorder where
  weightsRef : Nat
  lossesRef : Nat
deriving DecidableEq

/-- Embeds get_gd_state_recorder_callback: allocates two fresh empty lists
(weights, losses), builds the closure over them, and returns
(callback, weights, losses) exactly as the source does. -/
def get_gd_state_recorder_callback (h : Heap) : Recorder × Nat × Nat × Heap :=
  let weightsRef := h.length
  let lossesRef := h.length + 1
  (⟨weightsRef, lossesRef⟩, weightsRef, lossesRef, h ++ [[], []])

/-- Python attribute dispatch for target.append(x): only a list object has an
append method; None, numbers and numpy arrays raise AttributeError.  On
success the mutated heap is returned; on error the heap is unchanged. -/
def pyAppend (target : PyVal) (x : PyVal) (h : Heap) : Option PyErr × Heap :=
  match target with
  | PyVal.list r => (Option.none, heapAppend h r x)
  | _ => (some PyErr.attributeError, h)

/-- Embeds the body of the inner callback
    def callback(solver=None, weights=None, val=None, ...):
        weights.append(weights)
        losses.append(val)
The name weights in the body resolves to the PARAMETER (it shadows the
closure accumulator), so the first statement is weights-argument.append
applied to the weights argument itself; losses resolves to the closure
list.  An exception in the first statement propagates before the second
runs, leaving the heap as it was. -/
def callbackCall (c : Recorder) (h : Heap) (weights val : PyVal) :
    Option PyErr × Heap :=
  match pyAppend weights weights h with
  | (some e, h1) => (some e, h1)
  | (Option.none, h1) => (Option.none, heapAppend h1 c.lossesRef val)

/-- First fresh recorder state, allocated on the empty heap. -/
def rec0 : Recorder := (get_gd_state_recorder_callback []).1

/-- Heap after allocating the first recorder on the empty heap. -/
def heap0 : Heap := (get_gd_state_recorder_callback []).2.2.2

theorem heapGet_append_right (h : Heap) (l : List (List PyVal)) (i : Nat) :
    heapGet (h ++ l) (h.length + i) = heapGet l i := by
  unfold heapGet
  induction h with
  | nil => simp
  | cons a t ih =>
      simpa [List.length_cons, Nat.succ_add] using ih

theorem get?_set_ne {α : Type} (l : List α) (n m : Nat) (a : α) (hnm : n ≠ m) :
    (l.set n a).get? m = l.get? m := by
  induction l generalizing n m with
  | nil => simp
  | cons b t ih =>
      cases n with
      | zero =>
          cases m with
          | zero => exact absurd rfl hnm
          | succ m => simp
      | succ n =>
          cases m with
          | zero => simp
          | succ m =>
              simp only [List.set, List.get?]
              exact ih n m (fun he => hnm (by rw [he]))

theorem heapGet_heapAppend_ne (h : Heap) (r r' : Nat) (x : PyVal) (hne : r ≠ r') :
    heapGet (heapAppend h r x) r' = heapGet h r' := by
  unfold heapGet heapAppend
  rw [get?_set_ne _ _ _ _ hne]

/-- C1: the claim says an invocation of the recorder callback with weight
vector w and value v appends w to the returned weights list and v to the
returned losses list.  Evaluating the embedded code at a fresh recorder and a
numpy-array weight vector shows instead: the shadowed parameter makes
weights.append raise AttributeError and both accumulators stay empty. -/
theorem callback_drops_weights_at_array_input :
    heap0 = [[], []] ∧
    callbackCall rec0 heap0 (PyVal.arr [1, 1]) (PyVal.num 2) =
      (some PyErr.attributeError, [[], []]) := by
  exact ⟨rfl, rfl⟩

/-- C2: the claim says after n invocations both accumulator lists have length
n.  Evaluating one invocation (n = 1) of the embedded callback at a fresh
recorder: the call raises AttributeError and both accumulator lists still
have length 0, not 1. -/
theorem one_invocation_records_nothing :
    (callbackCall rec0 heap0 (PyVal.arr [0]) (PyVal.num 0)).1 =
      some PyErr.attributeError ∧
    (heapGet (callbackCall rec0 heap0 (PyVal.arr [0]) (PyVal.num 0)).2
      rec0.weightsRef).length = 0 ∧
    (heapGet (callbackCall rec0 heap0 (PyVal.arr [0]) (PyVal.num 0)).2
      rec0.lossesRef).length = 0 := by
  exact ⟨rfl, rfl, rfl⟩

/-- C3: every invocation of the recorder callback whose weights argument is
None (the Python default) or a numpy array raises AttributeError, and the
heap — in particular the losses accumulator — is unchanged, because the
failing append is the first statement of the body. -/
theorem callback_raises_attribute_error (c : Recorder) (h : Heap)
    (weights val : PyVal)
    (hw : weights = PyVal.pyNone ∨ ∃ d, weights = PyVal.arr d) :
    callbackCall c h weights val = (some PyErr.attributeError, h) ∧
    heapGet (callbackCall c h weights val).2 c.lossesRef =
      heapGet h c.lossesRef := by
  have he : callbackCall c h weights val = (some PyErr.attributeError, h) := by
    rcases hw with h1 | ⟨d, h1⟩ <;> subst h1 <;> rfl
  exact ⟨he, by rw [he]⟩

/-- Witness for C3 at a concrete fresh recorder and a concrete array. -/
theorem callback_raises_attribute_error_witness :
    callbackCall rec0 heap0 (PyVal.arr [3]) (PyVal.num 7) =
      (some PyErr.attributeError, heap0) ∧
    heapGet (callbackCall rec0 heap0 (PyVal.arr [3]) (PyVal.num 7)).2
      rec0.lossesRef = heapGet heap0 rec0.lossesRef :=
  callback_raises_attribute_error rec0 heap0 (PyVal.arr [3]) (PyVal.num 7)
    (Or.inr ⟨[3], rfl⟩)

/-- C4: every call of get_gd_state_recorder_callback allocates fresh,
initially empty weights and losses accumulators; the returned lists are the
very lists captured by the closure; two successive calls yield four pairwise
distinct list objects, the references are fresh with respect to the earlier
heap, and appending to the second recorder's losses list leaves both of the
first recorder's accumulators untouched. -/
theorem recorder_accumulators_fresh_and_disjoint (h : Heap)
    (c1 : Recorder) (wr1 lr1 : Nat) (h1 : Heap)
    (c2 : Recorder) (wr2 lr2 : Nat) (h2 : Heap)
    (e1 : get_gd_state_recorder_callback h = (c1, wr1, lr1, h1))
    (e2 : get_gd_state_recorder_callback h1 = (c2, wr2, lr2, h2)) :
    c1.weightsRef = wr1 ∧ c1.lossesRef = lr1 ∧
    c2.weightsRef = wr2 ∧ c2.lossesRef = lr2 ∧
    heapGet h1 wr1 = [] ∧ heapGet h1 lr1 = [] ∧
    heapGet h2 wr2 = [] ∧ heapGet h2 lr2 = [] ∧
    wr1 ≠ lr1 ∧ wr2 ≠ lr2 ∧
    wr1 ≠ wr2 ∧ wr1 ≠ lr2 ∧ lr1 ≠ wr2 ∧ lr1 ≠ lr2 ∧
    h.length ≤ wr1 ∧ h.length ≤ lr1 ∧
    (∀ v, heapGet (heapAppend h2 lr2 v) wr1 = heapGet h2 wr1 ∧
          heapGet (heapAppend h2 lr2 v) lr1 = heapGet h2 lr1) := by
  unfold get_gd_state_recorder_callback at e1 e2
  simp only [Prod.mk.injEq] at e1 e2
  obtain ⟨hc1, hwr1, hlr1, hh1⟩ := e1
  obtain ⟨hc2, hwr2, hlr2, hh2⟩ := e2
  subst hc1; subst hwr1; subst hlr1; subst hh1
  subst hc2; subst hwr2; subst hlr2; subst hh2
  have hlen : (h ++ [[], []]).length = h.length + 2 := by
    simp
  refine ⟨rfl, rfl, rfl, rfl, ?_, ?_, ?_, ?_, ?_, ?_, ?_,
    ?_, ?_, ?_, ?_, ?_, ?_⟩
  · simpa using heapGet_append_right h [[], []] 0
  · simpa using heapGet_append_right h [[], []] 1
  · rw [List.append_assoc, hlen]
    exact heapGet_append_right h ([[], []] ++ [[], []]) 2
  · rw [List.append_assoc, hlen]
    exact heapGet_append_right h ([[], []] ++ [[], []]) 3
  · omega
  · omega
  · rw [hlen]; omega
  · rw [hlen]; omega
  · rw [hlen]; omega
  · rw [hlen]; omega
  · omega
  · omega
  · intro v
    constructor
    · exact heapGet_heapAppend_ne _ _ _ _ (by rw [hlen]; omega)
    · exact heapGet_heapAppend_ne _ _ _ _ (by rw [hlen]; omega)

/-- Witness for C4: two successive recorder allocations on the empty heap. -/
theorem recorder_accumulators_fresh_and_disjoint_witness :
    rec0.weightsRef = 0 ∧ rec0.lossesRef = 1 ∧
    (2 : Nat) = 2 ∧ (3 : Nat) = 3 ∧
    heapGet heap0 0 = [] ∧ heapGet heap0 1 = [] ∧
    heapGet [[], [], [], []] 2 = [] ∧ heapGet [[], [], [], []] 3 = [] ∧
    (0 : Nat) ≠ 1 ∧ (2 : Nat) ≠ 3 ∧
    (0 : Nat) ≠ 2 ∧ (0 : Nat) ≠ 3 ∧ (1 : Nat) ≠ 2 ∧ (1 : Nat) ≠ 3 ∧
    ([] : Heap).length ≤ 0 ∧ ([] : Heap).length ≤ 1 ∧
    (∀ v, heapGet (heapAppend [[], [], [], []] 3 v) 0 =
            heapGet [[], [], [], []] 0 ∧
          heapGet (heapAppend [[], [], [], []] 3 v) 1 =
            heapGet [[], [], [], []] 1) := by
  have h := recorder_accumulators_fresh_and_disjoint []
    rec0 0 1 heap0 ⟨2, 3⟩ 2 3 [[], [], [], []] rfl rfl
  have h1 : Recorder.weightsRef ⟨2, 3⟩ = 2 := rfl
  have h2 : Recorder.lossesRef ⟨2, 3⟩ = 3 := rfl
  exact ⟨h.1, h.2.1, rfl, rfl, h.2.2.2.2.1, h.2.2.2.2.2.1, h.2.2.2.2.2.2.1,
    h.2.2.2.2.2.2.2.1, h.2.2.2.2.2.2.2.2.1, h.2.2.2.2.2.2.2.2.2.1,
    h.2.2.2.2.2.2.2.2.2.2.1, h.2.2.2.2.2.2.2.2.2.2.2.1,
    h.2.2.2.2.2.2.2.2.2.2.2.2.1, h.2.2.2.2.2.2.2.2.2.2.2.2.2.1,
    h.2.2.2.2.2.2.2.2.2.2.2.2.2.2.1, h.2.2.2.2.2.2.2.2.2.2.2.2.2.2.2.1,
    h.2.2.2.2.2.2.2.2.2.2.2.2.2.2.2.2⟩

/-- Observable side effects the script could perform (plotting). -/
inductive Effect where
  | plotConvergence
  | plotDescentPath
deriving DecidableEq

/-- A statement of a straight-line Python body: either a side effect or a
raise NotImplementedError(). -/
inductive Stmt where
  | effect (e : Effect)
  | raiseNotImplemented
deriving DecidableEq

/-- Run a straight-line body: statements execute in order and the first
raise aborts, discarding the rest; the performed effects are collected. -/
def runStmts : List Stmt → Option PyErr × List Effect
  | [] => (Option.none, [])
  | Stmt.raiseNotImplemented :: _ => (some PyErr.notImplementedError, [])
  | Stmt.effect e :: rest =>
    let r := runStmts rest
    (r.1, e :: r.2)

/-- The body of compare_exponential_decay_rates: three raise
NotImplementedError() statements (its comments describe intended work that
was never written), the first of which is the first statement executed. -/
def compare_exponential_decay_rates_body : List Stmt :=
  [Stmt.raiseNotImplemented, Stmt.raiseNotImplemented, Stmt.raiseNotImplemented]

/-- Embeds compare_exponential_decay_rates(init, eta, gammas): running its
body, for any argument values. -/
def compare_exponential_decay_rates (init : List ℚ) (eta : ℚ)
    (gammas : List ℚ) : Option PyErr × List Effect :=
  runStmts compare_exponential_decay_rates_body

/-- C5: for every input, compare_exponential_decay_rates raises
NotImplementedError and performs no side effect before doing so. -/
theorem compare_exponential_decay_rates_is_stub (init : List ℚ) (eta : ℚ)
    (gammas : List ℚ) :
    compare_exponential_decay_rates init eta gammas =
      (some PyErr.notImplementedError, []) := by
  rfl

/-- A cell of the loaded table: a string or a number. -/
inductive Cell where
  | str (s : String)
  | num (q : ℚ)
deriving DecidableEq

/-- A row is an association list from column name to cell. -/
abbrev Row := List (String × Cell)

/-- A data frame is a list of rows. -/
abbrev DataFrame := List Row

/-- Value of column k in a row, if present. -/
def lookupCell (row : Row) (k : String) : Option Cell :=
  (row.find? (fun p => p.1 = k)).map Prod.snd

/-- The recode (cell == "Present").astype(int): 1 when the cell holds the
string Present, 0 otherwise. -/
def recodeCell (c : Cell) : Cell :=
  Cell.num (if c = Cell.str "Present" then 1 else 0)

/-- One row after df.famhist = (df.famhist == "Present").astype(int):
only the famhist column changes, by recodeCell. -/
def recodeRow (row : Row) : Row :=
  row.map (fun p => if p.1 = "famhist" then (p.1, recodeCell p.2) else p)

/-- Embeds the assignment df.famhist = (df.famhist == "Present").astype(int)
performed by load_data on the loaded table. -/
def recodeFamhist (df : DataFrame) : DataFrame :=
  df.map recodeRow

/-- Embeds df.drop(cols, axis=1): removes the named columns from each row. -/
def dropCols (df : DataFrame) (cols : List String) : DataFrame :=
  df.map (fun row => row.filter (fun p => decide (p.1 ∉ cols)))

/-- Embeds df.chd: the response column as a series of optional cells. -/
def responseColumn (df : DataFrame) : List (Option Cell) :=
  df.map (fun row => lookupCell row "chd")

/-- Modelled from the spec: IMLearn.utils.split_train_test is not under the
source tree.  The spec and the load_data docstring describe it as a
randomized train/test split with ceil(train_portion * n_samples) training
rows; the random row order is passed in explicitly as perm. -/
def split_train_test (X : DataFrame) (y : List (Option Cell))
    (trainPortion : ℚ) (perm : List Nat) :
    DataFrame × List (Option Cell) × DataFrame × List (Option Cell) :=
  let k : Nat := (trainPortion * (X.length : ℚ)).ceil.toNat
  let trainIdx := perm.take k
  let testIdx := perm.drop k
  (trainIdx.filterMap (fun i => X.get? i),
   trainIdx.filterMap (fun i => y.get? i),
   testIdx.filterMap (fun i => X.get? i),
   testIdx.filterMap (fun i => y.get? i))

/-- Embeds load_data: recode famhist on the loaded table df, then split
features (all columns but chd and row.names) and response (chd) into a
train and a test portion. -/
def load_data (df : DataFrame) (trainPortion : ℚ) (perm : List Nat) :
    DataFrame × List (Option Cell) × DataFrame × List (Option Cell) :=
  let recoded := recodeFamhist df
  split_train_test (dropCols recoded ["chd", "row.names"])
    (responseColumn recoded) trainPortion perm

/-- A two-row sample of the SAheart table, for concrete evaluation. -/
def sampleDF : DataFrame :=
  [[("row.names", Cell.num 1), ("sbp", Cell.num 160),
    ("famhist", Cell.str "Present"), ("chd", Cell.num 1)],
   [("row.names", Cell.num 2), ("sbp", Cell.num 144),
    ("famhist", Cell.str "Absent"), ("chd", Cell.num 0)]]

theorem lookupCell_recodeRow (row : Row) :
    lookupCell (recodeRow row) "famhist" =
      (lookupCell row "famhist").map recodeCell := by
  induction row with
  | nil => rfl
  | cons p t ih =>
      unfold lookupCell recodeRow at ih ⊢
      by_cases hp : p.1 = "famhist"
      · simp only [List.map_cons, if_pos hp]
        rw [List.find?_cons_of_pos, List.find?_cons_of_pos]
        · rfl
        · simpa using hp
        · simpa using hp
      · simp only [List.map_cons, if_neg hp]
        rw [List.find?_cons_of_neg, List.find?_cons_of_neg]
        · exact ih
        · simpa using hp
        · simpa using hp

theorem mem_filterMap_get? {α : Type} (l : List α) (idx : List Nat) (a : α)
    (ha : a ∈ idx.filterMap (fun i => l.get? i)) : a ∈ l := by
  rcases List.mem_filterMap.mp ha with ⟨i, _, hget⟩
  exact List.get?_mem hget

theorem lookupCell_dropCols (df : DataFrame) (cols : List String) (row : Row)
    (hrow : row ∈ dropCols df cols) (k : String) (hk : k ∈ cols) :
    lookupCell row k = Option.none := by
  unfold dropCols at hrow
  rcases List.mem_map.mp hrow with ⟨row0, hmem0, hfilter⟩
  subst hfilter
  unfold lookupCell
  have hf : List.find? (fun q => decide (q.1 = k))
      (List.filter (fun q => decide (q.1 ∉ cols)) row0) = Option.none := by
    rw [List.find?_eq_none]
    intro x hx hpx
    have h1 := (List.mem_filter.mp hx).2
    have h2 : x.1 ∉ cols := of_decide_eq_true h1
    have h3 : x.1 = k := of_decide_eq_true hpx
    exact h2 (h3 ▸ hk)
  rw [hf]
  rfl

/-- C6: load_data recodes the famhist column to binary before the split:
every row of the recoded table carries famhist = 1 exactly when the loaded
value was the string Present and 0 otherwise, and both design matrices the
split returns are drawn from that recoded table. -/
theorem load_data_recodes_famhist (df : DataFrame) (trainPortion : ℚ)
    (perm : List Nat) :
    (∀ i row c, df.get? i = some row → lookupCell row "famhist" = some c →
      ∃ row2, (recodeFamhist df).get? i = some row2 ∧
        lookupCell row2 "famhist" =
          some (Cell.num (if c = Cell.str "Present" then 1 else 0))) ∧
    (∀ row, row ∈ (load_data df trainPortion perm).1 →
      row ∈ dropCols (recodeFamhist df) ["chd", "row.names"]) ∧
    (∀ row, row ∈ (load_data df trainPortion perm).2.2.1 →
      row ∈ dropCols (recodeFamhist df) ["chd", "row.names"]) := by
  refine ⟨?_, ?_, ?_⟩
  · intro i row c hget hlook
    refine ⟨recodeRow row, ?_, ?_⟩
    · unfold recodeFamhist
      rw [List.get?_map, hget]
      rfl
    · rw [lookupCell_recodeRow, hlook]
      rfl
  · intro row hrow
    exact mem_filterMap_get? _ _ _ hrow
  · intro row hrow
    exact mem_filterMap_get? _ _ _ hrow

/-- Witness for C6 at the sample table: the first row has famhist Present
and is recoded to the number 1. -/
theorem load_data_recodes_famhist_witness :
    ∃ row2, (recodeFamhist sampleDF).get? 0 = some row2 ∧
      lookupCell row2 "famhist" =
        some (Cell.num
          (if (Cell.str "Present") = Cell.str "Present" then 1 else 0)) :=
  (load_data_recodes_famhist sampleDF (4 / 5) [0, 1]).1 0
    [("row.names", Cell.num 1), ("sbp", Cell.num 160),
     ("famhist", Cell.str "Present"), ("chd", Cell.num 1)]
    (Cell.str "Present") (by decide) (by decide)

/-- C7: in the output of load_data the chd and row.names columns are absent
from every row of both design matrices, and every response value is drawn
from the chd column of the (recoded) table. -/
theorem load_data_excludes_chd_and_rownames (df : DataFrame)
    (trainPortion : ℚ) (perm : List Nat) :
    (∀ row, (row ∈ (load_data df trainPortion perm).1 ∨
        row ∈ (load_data df trainPortion perm).2.2.1) →
      lookupCell row "chd" = Option.none ∧
      lookupCell row "row.names" = Option.none) ∧
    (∀ v, (v ∈ (load_data df trainPortion perm).2.1 ∨
        v ∈ (load_data df trainPortion perm).2.2.2) →
      v ∈ responseColumn (recodeFamhist df)) := by
  constructor
  · intro row hrow
    have hmem : row ∈ dropCols (recodeFamhist df) ["chd", "row.names"] := by
      rcases hrow with h | h
      · exact mem_filterMap_get? _ _ _ h
      · exact mem_filterMap_get? _ _ _ h
    exact ⟨lookupCell_dropCols _ _ _ hmem "chd" (by simp),
      lookupCell_dropCols _ _ _ hmem "row.names" (by simp)⟩
  · intro v hv
    rcases hv with h | h
    · exact mem_filterMap_get? _ _ _ h
    · exact mem_filterMap_get? _ _ _ h

theorem mem_split_of_mem_perm (X : DataFrame) (y : List (Option Cell))
    (p : ℚ) (perm : List Nat) (i : Nat) (row : Row)
    (hi : i ∈ perm) (hget : X.get? i = some row) :
    row ∈ (split_train_test X y p perm).1 ∨
    row ∈ (split_train_test X y p perm).2.2.1 := by
  have hi2 : i ∈ perm.take ((p * (X.length : ℚ)).ceil.toNat) ++
      perm.drop ((p * (X.length : ℚ)).ceil.toNat) := by
    rw [List.take_append_drop]
    exact hi
  rcases List.mem_append.mp hi2 with h | h
  · exact Or.inl (List.mem_filterMap.mpr ⟨i, h, hget⟩)
  · exact Or.inr (List.mem_filterMap.mpr ⟨i, h, hget⟩)

/-- Witness for C7: the first train row of the sample table has neither a
chd nor a row.names column. -/
theorem load_data_excludes_chd_and_rownames_witness :
    lookupCell [("sbp", Cell.num 160), ("famhist", Cell.num 1)] "chd" =
      Option.none ∧
    lookupCell [("sbp", Cell.num 160), ("famhist", Cell.num 1)] "row.names" =
      Option.none :=
  (load_data_excludes_chd_and_rownames sampleDF (4 / 5) [0, 1]).1
    [("sbp", Cell.num 160), ("famhist", Cell.num 1)]
    (mem_split_of_mem_perm
      (dropCols (recodeFamhist sampleDF) ["chd", "row.names"])
      (responseColumn (recodeFamhist sampleDF)) (4 / 5) [0, 1] 0
      [("sbp", Cell.num 160), ("famhist", Cell.num 1)]
      (by decide) (by decide))

/-- Modelled from the spec: an objective (module) exposing a scalar value
and a gradient at a given weight vector — the contract of the IMLearn
BaseModule collaborators, which are not under the source tree. -/
structure Objective where
  val : List ℚ → ℚ
  grad : List ℚ → List ℚ

/-- Modelled from the spec: FixedLR, the constant step-size policy. -/
def FixedLR (eta : ℚ) : Nat → ℚ := fun _ => eta

/-- Componentwise difference of two weight vectors. -/
def vecSub (a b : List ℚ) : List ℚ :=
  (a.zip b).map (fun p => p.1 - p.2)

/-- The norm applied to the successive-weight difference for the
convergence test. -/
def l1norm (v : List ℚ) : ℚ :=
  (v.map (fun x => |x|)).sum

/-- Modelled from the spec: one gradient-descent update
new_weights = current_weights - step_size * gradient(current_weights). -/
def gdStep (f : Objective) (eta : ℚ) (w : List ℚ) : List ℚ :=
  (w.zip (f.grad w)).map (fun p => p.1 - eta * p.2)

/-- Modelled from the spec: the optimization loop of GradientDescent.  Every
iteration performs one update and reports the new weights together with the
objective value there (the record the observer callback receives); the loop
stops early when the norm of the successive-weight difference falls below
the tolerance, and otherwise runs until the iteration cap is reached. -/
def gdRecord (f : Objective) (lr : Nat → ℚ) (tol : ℚ) :
    Nat → Nat → List ℚ → List (List ℚ × ℚ)
  | 0, _, _ => []
  | fuel + 1, t, w =>
    if l1norm (vecSub (gdStep f (lr t) w) w) < tol then
      [(gdStep f (lr t) w, f.val (gdStep f (lr t) w))]
    else
      (gdStep f (lr t) w, f.val (gdStep f (lr t) w)) ::
        gdRecord f lr tol fuel (t + 1) (gdStep f (lr t) w)

/-- Modelled from the spec: the best output selection — fold over the
recorded iterates keeping the one of lowest objective value. -/
def pickBest : List ℚ × ℚ → List (List ℚ × ℚ) → List ℚ × ℚ
  | best, [] => best
  | best, r :: rs => pickBest (if r.2 < best.2 then r else best) rs

/-- The out_type value compare_fixed_learning_rates passes to both solvers
for every learning rate (source: out_type = "best"). -/
def out_type : String := "best"

/-- Modelled from the spec: the output-selection policy — under "best" the
recorded iterate of lowest objective value, otherwise the final iterate;
the initial point stands in when no iteration was recorded. -/
def selectOut (outType : String) (fallback : List ℚ × ℚ)
    (traj : List (List ℚ × ℚ)) : List ℚ × ℚ :=
  if outType = "best" then
    match traj with
    | [] => fallback
    | r :: rs => pickBest r rs
  else
    match traj.getLast? with
    | some r => r
    | Option.none => fallback

/-- Modelled from the spec: GradientDescent.fit — run the loop from the
initial weights and return the selected output together with the recorded
trajectory. -/
def gdFit (f : Objective) (lr : Nat → ℚ) (tol : ℚ) (maxIter : Nat)
    (outType : String) (init : List ℚ) :
    (List ℚ × ℚ) × List (List ℚ × ℚ) :=
  (selectOut outType (init, f.val init) (gdRecord f lr tol maxIter 0 init),
   gdRecord f lr tol maxIter 0 init)

/-- A trivial objective (constant value, empty gradient) used to evaluate
the loop on concrete inputs. -/
def constObjective : Objective :=
  ⟨fun _ => 0, fun _ => []⟩

theorem pickBest_le_seed (l : List (List ℚ × ℚ)) (b : List ℚ × ℚ) :
    (pickBest b l).2 ≤ b.2 := by
  induction l generalizing b with
  | nil => exact le_refl _
  | cons a t ih =>
      show (pickBest (if a.2 < b.2 then a else b) t).2 ≤ b.2
      refine le_trans (ih _) ?_
      by_cases hab : a.2 < b.2
      · rw [if_pos hab]
        exact le_of_lt hab
      · rw [if_neg hab]

theorem pickBest_le_mem (l : List (List ℚ × ℚ)) (b : List ℚ × ℚ)
    (r : List ℚ × ℚ) (hr : r ∈ l) : (pickBest b l).2 ≤ r.2 := by
  induction l generalizing b with
  | nil => cases hr
  | cons a t ih =>
      show (pickBest (if a.2 < b.2 then a else b) t).2 ≤ r.2
      rcases List.mem_cons.mp hr with heq | hmem
      · subst heq
        refine le_trans (pickBest_le_seed t _) ?_
        by_cases hab : r.2 < b.2
        · rw [if_pos hab]
        · rw [if_neg hab]
          exact le_of_not_lt hab
      · exact ih _ hmem

/-- C8: with output policy best — the policy compare_fixed_learning_rates
configures for every learning rate — the objective value of the returned
result is at most the objective value of every recorded iterate of the
run. -/
theorem gd_best_result_le_recorded (f : Objective) (lr : Nat → ℚ) (tol : ℚ)
    (maxIter : Nat) (outType : String) (init : List ℚ)
    (hout : outType = out_type) (r : List ℚ × ℚ)
    (hr : r ∈ (gdFit f lr tol maxIter outType init).2) :
    ((gdFit f lr tol maxIter outType init).1).2 ≤ r.2 := by
  subst hout
  have h2 : (gdFit f lr tol maxIter out_type init).2 =
      gdRecord f lr tol maxIter 0 init := rfl
  have h1 : (gdFit f lr tol maxIter out_type init).1 =
      selectOut out_type (init, f.val init)
        (gdRecord f lr tol maxIter 0 init) := rfl
  rw [h2] at hr
  rw [h1]
  cases htraj : gdRecord f lr tol maxIter 0 init with
  | nil =>
      rw [htraj] at hr
      cases hr
  | cons a t =>
      rw [htraj] at hr
      have hsel : selectOut out_type (init, f.val init) (a :: t) =
          pickBest a t := by
        unfold selectOut out_type
        rw [if_pos rfl]
      rw [hsel]
      rcases List.mem_cons.mp hr with heq | hmem
      · rw [heq]
        exact pickBest_le_seed t a
      · exact pickBest_le_mem t a r hmem

/-- Witness for C8 at a concrete configuration: two iterations of the
trivial objective with unit learning rate, output policy best. -/
theorem gd_best_result_le_recorded_witness :
    ((gdFit constObjective (FixedLR 1) 0 2 out_type []).1).2 ≤
      ((([] : List ℚ), (0 : ℚ))).2 :=
  gd_best_result_le_recorded constObjective (FixedLR 1) 0 2 out_type []
    rfl (([] : List ℚ), (0 : ℚ)) (by decide)

theorem gdRecord_length_le (f : Objective) (lr : Nat → ℚ) (tol : ℚ)
    (fuel t : Nat) (w : List ℚ) :
    (gdRecord f lr tol fuel t w).length ≤ fuel := by
  induction fuel generalizing t w with
  | zero => exact le_refl _
  | succ n ih =>
      show (if l1norm (vecSub (gdStep f (lr t) w) w) < tol then
          [(gdStep f (lr t) w, f.val (gdStep f (lr t) w))]
        else
          (gdStep f (lr t) w, f.val (gdStep f (lr t) w)) ::
            gdRecord f lr tol n (t + 1) (gdStep f (lr t) w)).length ≤ n + 1
      by_cases hc : l1norm (vecSub (gdStep f (lr t) w) w) < tol
      · rw [if_pos hc]
        simp
      · rw [if_neg hc]
        simpa using ih (t + 1) (gdStep f (lr t) w)

/-- C9: for positive maximum iteration count and non-negative tolerance the
loop terminates within max_iterations steps: the recorded trajectory — one
record per executed iteration — has length at most max_iterations.
(Termination itself is structural: the loop consumes its iteration
budget.) -/
theorem gd_terminates_within_max_iterations (f : Objective) (lr : Nat → ℚ)
    (tol : ℚ) (maxIter : Nat) (outType : String) (init : List ℚ)
    (hpos : 0 < maxIter) (htol : 0 ≤ tol) :
    ((gdFit f lr tol maxIter outType init).2).length ≤ maxIter :=
  gdRecord_length_le f lr tol maxIter 0 init

/-- Witness for C9 at a concrete configuration with three iterations. -/
theorem gd_terminates_within_max_iterations_witness :
    (0 : Nat) < 3 ∧ (0 : ℚ) ≤ 0 ∧
    ((gdFit constObjective (FixedLR 1) 0 3 out_type []).2).length ≤ 3 :=
  ⟨by decide, by decide,
   gd_terminates_within_max_iterations constObjective (FixedLR 1) 0 3
     out_type [] (by decide) (by decide)⟩

/-- Modelled from the spec: the optimization loop as a relation between a
starting state (remaining iteration budget, iteration index, current
weights) and the trajectory it records.  One constructor per way an
execution can unfold: budget exhausted, converged on this iteration, or
one more iteration followed by the rest of the run. -/
inductive GDTraj (f : Objective) (lr : Nat → ℚ) (tol : ℚ) :
    Nat → Nat → List ℚ → List (List ℚ × ℚ) → Prop where
  | exhausted (t : Nat) (w : List ℚ) : GDTraj f lr tol 0 t w []
  | converged (fuel t : Nat) (w : List ℚ)
      (hstop : l1norm (vecSub (gdStep f (lr t) w) w) < tol) :
      GDTraj f lr tol (fuel + 1) t w
        [(gdStep f (lr t) w, f.val (gdStep f (lr t) w))]
  | stepped (fuel t : Nat) (w : List ℚ) (tr : List (List ℚ × ℚ))
      (hgo : ¬ l1norm (vecSub (gdStep f (lr t) w) w) < tol)
      (hrest : GDTraj f lr tol fuel (t + 1) (gdStep f (lr t) w) tr) :
      GDTraj f lr tol (fuel + 1) t w
        ((gdStep f (lr t) w, f.val (gdStep f (lr t) w)) :: tr)

theorem GDTraj_unique (f : Objective) (lr : Nat → ℚ) (tol : ℚ)
    (fuel t : Nat) (w : List ℚ) (tr1 tr2 : List (List ℚ × ℚ))
    (h1 : GDTraj f lr tol fuel t w tr1) (h2 : GDTraj f lr tol fuel t w tr2) :
    tr1 = tr2 := by
  induction h1 generalizing tr2 with
  | exhausted t w =>
      cases h2
      rfl
  | converged fuel t w hstop =>
      cases h2 with
      | converged _ _ _ hstop2 => rfl
      | stepped _ _ _ _ hgo2 hrest2 => exact absurd hstop hgo2
  | stepped fuel t w tr hgo hrest ih =>
      cases h2 with
      | converged _ _ _ hstop2 => exact absurd hstop2 hgo
      | stepped _ _ _ tr2 hgo2 hrest2 => rw [ih tr2 hrest2]

theorem gdRecord_sound (f : Objective) (lr : Nat → ℚ) (tol : ℚ)
    (fuel t : Nat) (w : List ℚ) :
    GDTraj f lr tol fuel t w (gdRecord f lr tol fuel t w) := by
  induction fuel generalizing t w with
  | zero => exact GDTraj.exhausted t w
  | succ n ih =>
      by_cases hc : l1norm (vecSub (gdStep f (lr t) w) w) < tol
      · have he : gdRecord f lr tol (n + 1) t w =
            [(gdStep f (lr t) w, f.val (gdStep f (lr t) w))] := by
          simp only [gdRecord]
          rw [if_pos hc]
        rw [he]
        exact GDTraj.converged n t w hc
      · have he : gdRecord f lr tol (n + 1) t w =
            (gdStep f (lr t) w, f.val (gdStep f (lr t) w)) ::
              gdRecord f lr tol n (t + 1) (gdStep f (lr t) w) := by
          simp only [gdRecord]
          rw [if_neg hc]
        rw [he]
        exact GDTraj.stepped n t w _ hc (ih (t + 1) (gdStep f (lr t) w))

/-- C10: two runs of the optimization loop from identical initial weights,
step-size policy and objective record identical trajectories — the weights
sequences agree element by element, and so do the losses sequences. -/
theorem gd_trajectory_deterministic (f : Objective) (lr : Nat → ℚ)
    (tol : ℚ) (fuel t : Nat) (w : List ℚ) (tr1 tr2 : List (List ℚ × ℚ))
    (h1 : GDTraj f lr tol fuel t w tr1) (h2 : GDTraj f lr tol fuel t w tr2) :
    tr1.map Prod.fst = tr2.map Prod.fst ∧
    tr1.map Prod.snd = tr2.map Prod.snd := by
  have he : tr1 = tr2 := GDTraj_unique f lr tol fuel t w tr1 tr2 h1 h2
  rw [he]
  exact ⟨rfl, rfl⟩

/-- Witness for C10: two executions of the loop at a concrete configuration
yield the same recorded weights and losses. -/
theorem gd_trajectory_deterministic_witness :
    (gdRecord constObjective (FixedLR 1) 0 2 0 []).map Prod.fst =
      (gdRecord constObjective (FixedLR 1) 0 2 0 []).map Prod.fst ∧
    (gdRecord constObjective (FixedLR 1) 0 2 0 []).map Prod.snd =
      (gdRecord constObjective (FixedLR 1) 0 2 0 []).map Prod.snd :=
  gd_trajectory_deterministic constObjective (FixedLR 1) 0 2 0 []
    (gdRecord constObjective (FixedLR 1) 0 2 0 [])
    (gdRecord constObjective (FixedLR 1) 0 2 0 [])
    (gdRecord_sound constObjective (FixedLR 1) 0 2 0 [])
    (gdRecord_sound constObjective (FixedLR 1) 0 2 0 [])
